import Mathlib

/-!
Verification of the retrieval pipeline of the kct-chatbot repository.

The development shallowly embeds the Python sources:
  * `scripts/preprocess.py` — `clean_text`, `smart_chunking`, `clean_and_chunk`
  * `scripts/query_bot.py`  — `initialize_system`, `enhanced_semantic_search`,
    `create_conversational_prompt`

Python strings are modelled as `List Char`, Python integers as `Int`
(start/end offsets in `smart_chunking` can become negative), float
distances as `ℚ`.  Potentially raising operations return `Except Unit`;
the unbounded `while` loop of `smart_chunking` is modelled with explicit
fuel (`none` = the loop has not finished within the given fuel).
-/

instance {α β : Type} [DecidableEq α] [DecidableEq β] : DecidableEq (Except α β) :=
  fun a b =>
    match a, b with
    | .error x, .error y =>
      if h : x = y then isTrue (by rw [h]) else isFalse (by simp [h])
    | .error _, .ok _ => isFalse (by simp)
    | .ok _, .error _ => isFalse (by simp)
    | .ok x, .ok y =>
      if h : x = y then isTrue (by rw [h]) else isFalse (by simp [h])

set_option maxRecDepth 8000

open List

namespace KctBot

/-! ## Python string / list primitives -/

/-- The character class Python's `str.strip()` removes (ASCII whitespace;
the Python original also strips a handful of rarely used Unicode
whitespace code points, which never occur in this corpus model). -/
def isPySpace (c : Char) : Bool :=
  c = ' ' || c = '\t' || c = '\n' || c = '\r' || c = '\x0b' || c = '\x0c'

/-- Python `s.strip()`. -/
def pyStrip (l : List Char) : List Char :=
  ((l.dropWhile isPySpace).reverse.dropWhile isPySpace).reverse

/-- Clamp-and-translate an index for Python slice semantics. -/
def pySliceIdx (n : Nat) (i : Int) : Nat :=
  if i < 0 then (max (i + n) 0).toNat else min i.toNat n

/-- Python slice `l[a:b]` (negative indices count from the end, then
both bounds are clamped into `[0, n]`). -/
def pySlice (l : List Char) (a b : Int) : List Char :=
  let n := l.length
  (l.drop (pySliceIdx n a)).take (pySliceIdx n b - pySliceIdx n a)

/-- Python subscript `l[i]`: negative indices count from the end;
out-of-range access is an `IndexError`, modelled as `none`. -/
def pyGet (l : List Char) (i : Int) : Option Char :=
  if 0 ≤ i then l[i.toNat]?
  else if 0 ≤ i + l.length then l[(i + l.length).toNat]?
  else none

/-- Python `range(a, b, -1)` as a list: `[a, a-1, ..., b+1]`. -/
def pyRangeDownGo : Nat → Int → List Int
  | 0, _ => []
  | n + 1, a => a :: pyRangeDownGo n (a - 1)

/-- Python `range(a, b, -1)`. -/
def pyRangeDown (a b : Int) : List Int :=
  pyRangeDownGo (a - b).toNat a

/-! ## `clean_text` (preprocess.py lines 36-42) -/

/-- One step of `re.sub r'\s+' ' '`: the flag records whether the
previous character was part of a whitespace run. -/
def collapseWsAux : Bool → List Char → List Char
  | _, [] => []
  | prev, c :: cs =>
    if isPySpace c then
      if prev then collapseWsAux true cs else ' ' :: collapseWsAux true cs
    else c :: collapseWsAux false cs

/-- `re.sub(r'\s+', ' ', text)`. -/
def collapseWs (l : List Char) : List Char := collapseWsAux false l

/-- Python's regex class `\w` (modelled over its ASCII fragment:
letters, digits and underscore; the corpus text is ASCII). -/
def isWordChar (c : Char) : Bool := c.isAlphanum || c = '_'

/-- The conservative allow-list of `clean_text`'s second substitution:
word characters, whitespace and `. , ! ? - : ; ( )`. -/
def allowedChar (c : Char) : Bool :=
  isWordChar c || isPySpace c ||
    (c = '.' || c = ',' || c = '!' || c = '?' || c = '-' ||
     c = ':' || c = ';' || c = '(' || c = ')')

/-- `clean_text`: collapse whitespace runs of the stripped text to a
single space, then drop characters outside the allow-list. -/
def cleanText (text : List Char) : List Char :=
  (collapseWs (pyStrip text)).filter allowedChar

/-! ## `smart_chunking` (preprocess.py lines 44-68) -/

/-- Sentence-terminal characters `'.!?'`. -/
def isSentenceEnd (c : Char) : Bool := c = '.' || c = '!' || c = '?'

/-- The body of
`for i in range(end, max(start + chunk_size - 150, start), -1)`:
return the first index of the list holding a sentence-terminal
character; `.error` is an `IndexError` on a subscript. -/
def findTerminal (content : List Char) : List Int → Except Unit (Option Int)
  | [] => .ok none
  | i :: is =>
    match pyGet content i with
    | none => .error ()
    | some c => if isSentenceEnd c then .ok (some i) else findTerminal content is

/-- Lines 50-58 of preprocess.py: propose `end = start + chunk_size`;
when that is strictly before the content's end, scan backward over
`range(end, max(start + chunk_size - 150, start), -1)` for a
sentence-terminal character and cut right after it if found. -/
def computeEnd (content : List Char) (chunkSize start : Int) :
    Except Unit Int :=
  if start + chunkSize < (content.length : Int) then
    match findTerminal content
        (pyRangeDown (start + chunkSize) (max (start + chunkSize - 150) start)) with
    | .error _ => .error ()
    | .ok (some i) => .ok (i + 1)
    | .ok none => .ok (start + chunkSize)
  else .ok (start + chunkSize)

/-- The `while start < len(content)` loop of `smart_chunking`, with fuel.
Besides the chunk accumulator of the source, a ghost accumulator records
the `(start, end)` offset pair of every iteration (the source does not
store these; they are carried only so that offset-level properties can be
stated).  `none` = fuel exhausted (the loop still running), `.error` = an
uncaught `IndexError` from the scan. -/
def smartAux (content : List Char) (chunkSize overlap : Int) :
    Nat → Int → List (Int × Int) → List (List Char) →
    Option (Except Unit (List (Int × Int) × List (List Char)))
  | 0, _, _, _ => none
  | fuel + 1, start, segs, chunks =>
    if start < (content.length : Int) then
      match computeEnd content chunkSize start with
      | .error _ => some (.error ())
      | .ok e =>
        let chunk := pyStrip (pySlice content start e)
        let chunks' := if 100 < chunk.length then chunks ++ [chunk] else chunks
        let start' := e - overlap
        if (content.length : Int) ≤ start' then
          some (.ok (segs ++ [(start, e)], chunks'))
        else
          smartAux content chunkSize overlap fuel start' (segs ++ [(start, e)]) chunks'
    else some (.ok (segs, chunks))

/-- `smart_chunking(content, chunk_size, overlap)`: the list of kept
chunks (each guard `if chunk and len(chunk) > 100` is the `100 <` test:
a list of length `> 100` is automatically non-empty). -/
def smartChunking (fuel : Nat) (content : List Char) (chunkSize overlap : Int) :
    Option (Except Unit (List (List Char))) :=
  (smartAux content chunkSize overlap fuel 0 [] []).map (·.map (·.2))

/-- The `(start, end)` offset pairs of the loop iterations. -/
def smartSegments (fuel : Nat) (content : List Char) (chunkSize overlap : Int) :
    Option (Except Unit (List (Int × Int))) :=
  (smartAux content chunkSize overlap fuel 0 [] []).map (·.map (·.1))

/-! ## Facts about the chunker -/

/-- `content[i]` holds a sentence-terminal character. -/
def isTermAt (content : List Char) (i : Int) : Bool :=
  match pyGet content i with
  | some c => isSentenceEnd c
  | none => false

/-- The offsets `(startᵢ, endᵢ)` of the loop iterations form a chain:
each iteration starts where the previous proposed end minus the overlap
lies. -/
def segChainB (ov : Int) : Int → List (Int × Int) → Bool
  | _, [] => true
  | s, (a, b) :: t => a = s && segChainB ov (b - ov) t

lemma pyGet_isSome {content : List Char} {i : Int} (h0 : 0 ≤ i)
    (h1 : i < (content.length : Int)) : (pyGet content i).isSome = true := by
  unfold pyGet
  rw [if_pos h0]
  have ht : i.toNat < content.length := by omega
  simp [List.getElem?_eq_getElem ht]

lemma findTerminal_ok_none {content : List Char} : ∀ {L : List Int},
    (∀ i ∈ L, isTermAt content i = false ∧ (pyGet content i).isSome = true) →
    findTerminal content L = .ok none := by
  intro L
  induction L with
  | nil => intro _; rfl
  | cons i is ih =>
    intro h
    have h1 := h i (List.mem_cons_self i is)
    obtain ⟨c, hc⟩ := Option.isSome_iff_exists.mp h1.2
    have hfalse : isSentenceEnd c = false := by
      have := h1.1
      unfold isTermAt at this
      rw [hc] at this
      exact this
    unfold findTerminal
    rw [hc]
    simp only [hfalse, Bool.false_eq_true, if_false]
    exact ih fun j hj => h j (List.mem_cons_of_mem _ hj)

lemma findTerminal_append_found {content : List Char} {i : Int}
    (hterm : isTermAt content i = true) : ∀ {L₁ : List Int} (L₂ : List Int),
    (∀ j ∈ L₁, isTermAt content j = false ∧ (pyGet content j).isSome = true) →
    findTerminal content (L₁ ++ i :: L₂) = .ok (some i) := by
  intro L₁
  induction L₁ with
  | nil =>
    intro L₂ _
    unfold isTermAt at hterm
    unfold findTerminal
    rcases hget : pyGet content i with _ | c
    · rw [hget] at hterm; simp at hterm
    · rw [hget] at hterm
      have hterm' : isSentenceEnd c = true := hterm
      simp only [List.nil_append, hget, hterm', if_true]
  | cons j js ih =>
    intro L₂ h
    have h1 := h j (List.mem_cons_self j js)
    obtain ⟨c, hc⟩ := Option.isSome_iff_exists.mp h1.2
    have hfalse : isSentenceEnd c = false := by
      have := h1.1
      unfold isTermAt at this
      rw [hc] at this
      exact this
    show findTerminal content (j :: (js ++ i :: L₂)) = .ok (some i)
    unfold findTerminal
    rw [hc]
    simp only [hfalse, Bool.false_eq_true, if_false]
    exact ih L₂ fun x hx => h x (List.mem_cons_of_mem _ hx)

lemma pyRangeDownGo_append (n m : Nat) (a : Int) :
    pyRangeDownGo (n + m) a = pyRangeDownGo n a ++ pyRangeDownGo m (a - n) := by
  induction n generalizing a with
  | zero => simp [pyRangeDownGo]
  | succ k ih =>
    rw [show k + 1 + m = (k + m) + 1 from by omega]
    rw [pyRangeDownGo, pyRangeDownGo, ih]
    rw [show a - 1 - (k : Int) = a - ((k + 1 : Nat) : Int) from by push_cast; ring]
    simp [List.cons_append]

lemma mem_pyRangeDownGo : ∀ (n : Nat) (a i : Int),
    i ∈ pyRangeDownGo n a ↔ a - n < i ∧ i ≤ a := by
  intro n
  induction n with
  | zero =>
    intro a i
    simp only [pyRangeDownGo, List.not_mem_nil, false_iff, not_and]
    omega
  | succ k ih =>
    intro a i
    rw [pyRangeDownGo]
    simp only [List.mem_cons, ih]
    constructor
    · rintro (rfl | ⟨h1, h2⟩) <;> omega
    · rintro ⟨h1, h2⟩
      by_cases hia : i = a
      · exact Or.inl hia
      · right; omega

lemma mem_pyRangeDown {a b i : Int} (h : i ∈ pyRangeDown a b) :
    b < i ∧ i ≤ a := by
  unfold pyRangeDown at h
  rw [mem_pyRangeDownGo] at h
  omega

lemma pyRangeDown_split (a b i : Int) (h1 : b ≤ i) (h2 : i ≤ a) :
    pyRangeDown a b = pyRangeDown a i ++ pyRangeDown i b := by
  unfold pyRangeDown
  have hn : (a - b).toNat = (a - i).toNat + (i - b).toNat := by omega
  rw [hn, pyRangeDownGo_append]
  congr 2
  omega

lemma pyRangeDown_cons (i b : Int) (h : b < i) :
    pyRangeDown i b = i :: pyRangeDown (i - 1) b := by
  unfold pyRangeDown
  have hn : (i - b).toNat = (i - 1 - b).toNat + 1 := by omega
  rw [hn, pyRangeDownGo]

lemma smartAux_invariant (content : List Char) (cs ov : Int) :
    ∀ (fuel : Nat) (s : Int) (segs0 : List (Int × Int))
      (chunks0 : List (List Char)) (segs : List (Int × Int))
      (chunks : List (List Char)),
    smartAux content cs ov fuel s segs0 chunks0 = some (.ok (segs, chunks)) →
    (∀ c ∈ chunks, c ∈ chunks0 ∨ 100 < c.length) ∧
      ∃ segsNew, segs = segs0 ++ segsNew ∧ segChainB ov s segsNew = true := by
  intro fuel
  induction fuel with
  | zero =>
    intro s segs0 chunks0 segs chunks h
    simp [smartAux] at h
  | succ n ih =>
    intro s segs0 chunks0 segs chunks h
    rw [smartAux] at h
    split at h
    case isFalse =>
      simp only [Option.some.injEq, Except.ok.injEq, Prod.mk.injEq] at h
      obtain ⟨hs, hc⟩ := h
      subst hs; subst hc
      exact ⟨fun c hc => Or.inl hc, [], by simp, rfl⟩
    case isTrue hlt =>
      split at h
      case h_1 => simp at h
      case h_2 e heq =>
        simp only at h
        by_cases hkeep : 100 < (pyStrip (pySlice content s e)).length
        · rw [if_pos hkeep] at h
          split at h
          next =>
            simp only [Option.some.injEq, Except.ok.injEq, Prod.mk.injEq] at h
            obtain ⟨hs, hc⟩ := h
            subst hs; subst hc
            refine ⟨fun c hc => ?_, [(s, e)], rfl, by simp [segChainB]⟩
            rcases List.mem_append.mp hc with h' | h'
            · exact Or.inl h'
            · simp only [List.mem_singleton] at h'
              subst h'
              exact Or.inr hkeep
          next =>
            obtain ⟨hmem, segsNew, hsegs, hchain⟩ := ih _ _ _ _ _ h
            refine ⟨fun c hc => ?_, (s, e) :: segsNew, by simp [hsegs], ?_⟩
            · rcases hmem c hc with h' | h'
              · rcases List.mem_append.mp h' with h'' | h''
                · exact Or.inl h''
                · simp only [List.mem_singleton] at h''
                  subst h''
                  exact Or.inr hkeep
              · exact Or.inr h'
            · simp [segChainB, hchain]
        · rw [if_neg hkeep] at h
          split at h
          next =>
            simp only [Option.some.injEq, Except.ok.injEq, Prod.mk.injEq] at h
            obtain ⟨hs, hc⟩ := h
            subst hs; subst hc
            exact ⟨fun c hc => Or.inl hc, [(s, e)], rfl, by simp [segChainB]⟩
          next =>
            obtain ⟨hmem, segsNew, hsegs, hchain⟩ := ih _ _ _ _ _ h
            exact ⟨hmem, (s, e) :: segsNew, by simp [hsegs],
              by simp [segChainB, hchain]⟩

/-- The backward scan of §4.1 as the SPEC describes it: from the
proposed end, look back by up to `chunkSize - overlap` characters for a
sentence-terminal character.  This second definition follows the spec's
words and exists only to be compared against `computeEnd`, which follows
the code (whose lower scan bound is the constant `150`). -/
def specScanEnd (content : List Char) (chunkSize overlap start : Int) :
    Except Unit Int :=
  if start + chunkSize < (content.length : Int) then
    match findTerminal content
        (pyRangeDown (start + chunkSize) (start + chunkSize - (chunkSize - overlap))) with
    | .error _ => .error ()
    | .ok (some i) => .ok (i + 1)
    | .ok none => .ok (start + chunkSize)
  else .ok (start + chunkSize)

end KctBot

namespace KctBot

/-! ## Claim C2 -/

/-- C2 (amended): for every configuration with `chunkSize > overlap ≥ 0`,
every chunk emitted by `smart_chunking` has length strictly greater
than 100 (shorter fragments are not emitted), and the raw segments of
consecutive loop iterations are chained so that each next segment starts
exactly `overlap` characters before the previous proposed end offset;
because segments are whitespace-trimmed and short segments are dropped,
consecutive *emitted* chunks need not share exactly `overlap`
characters. -/
theorem claim_C2_chunk_bounds (content : List Char) (cs ov : Int) (fuel : Nat)
    (segs : List (Int × Int)) (chunks : List (List Char))
    (_hvalid : ov < cs) (_hov : 0 ≤ ov)
    (hch : smartChunking fuel content cs ov = some (.ok chunks))
    (hsg : smartSegments fuel content cs ov = some (.ok segs)) :
    (∀ c ∈ chunks, 100 < c.length) ∧ segChainB ov 0 segs = true := by
  unfold smartChunking at hch
  unfold smartSegments at hsg
  rcases haux : smartAux content cs ov fuel 0 [] [] with _ | r
  · rw [haux] at hch
    simp at hch
  · rw [haux] at hch hsg
    cases r with
    | error e =>
      simp [Except.map] at hch
    | ok p =>
      obtain ⟨ps, pc⟩ := p
      simp only [Option.map_some', Except.map, Option.some.injEq, Except.ok.injEq] at hch hsg
      subst hch
      subst hsg
      obtain ⟨hmem, segsNew, hsegs, hchain⟩ := smartAux_invariant content cs ov fuel 0 [] [] ps pc haux
      refine ⟨fun c hc => ?_, ?_⟩
      · rcases hmem c hc with h' | h'
        · simp at h'
        · exact h'
      · rw [hsegs, List.nil_append]
        exact hchain

/-- C2 witness: a concrete successful run of the chunker on 320 `'a'`s
with the default configuration. -/
theorem claim_C2_chunk_bounds_witness :
    (100 < (List.replicate 320 'a').length) ∧
      segChainB 150 0 [((0 : Int), (600 : Int))] = true := by
  have h := claim_C2_chunk_bounds (List.replicate 320 'a') 600 150 10
    [((0 : Int), (600 : Int))] [List.replicate 320 'a']
    (by decide) (by decide) (by decide) (by decide)
  exact ⟨h.1 _ (by simp), h.2⟩

/-- C2 counterexample: with `chunkSize = 110 > overlap = 5 ≥ 0` and a
content of 320 characters (which exceeds `chunkSize`), the first two of
the three emitted chunks do not overlap by exactly 5 characters: the
trailing space of the first raw segment is stripped from the first
emitted chunk, so its 5-character suffix differs from the second chunk's
5-character prefix.  The second chunk is not the final one. -/
theorem claim_C2_counterexample :
    smartChunking 10 (List.replicate 109 'a' ++ [' '] ++ List.replicate 210 'b') 110 5 =
      some (.ok [List.replicate 109 'a',
                 List.replicate 4 'a' ++ [' '] ++ List.replicate 105 'b',
                 List.replicate 110 'b']) ∧
    110 < (List.replicate 109 'a' ++ [' '] ++ List.replicate 210 'b').length ∧
    (List.replicate 109 'a').drop ((List.replicate 109 'a').length - 5) ≠
      (List.replicate 4 'a' ++ [' '] ++ List.replicate 105 'b').take 5 :=
  ⟨by decide, by decide, by decide⟩

/-! ## Claim C6 -/

/-- C6 (amended): whenever the proposed end offset `start + chunkSize`
is strictly before the content's end, `smart_chunking` scans backward
from that offset by up to `150` characters — the hard-coded window
`range(end, max(start + chunk_size - 150, start), -1)` — looking for a
sentence-terminal character; if one is found the chunk is cut
immediately after the closest (largest-offset) such character, otherwise
at the raw offset `start + chunkSize`. -/
theorem claim_C6_scan_window (content : List Char) (cs s : Int)
    (h0 : 0 ≤ s) (hlen : s + cs < (content.length : Int)) :
    ((∀ i ∈ pyRangeDown (s + cs) (max (s + cs - 150) s), isTermAt content i = false) →
      computeEnd content cs s = .ok (s + cs)) ∧
    (∀ i ∈ pyRangeDown (s + cs) (max (s + cs - 150) s), isTermAt content i = true →
      (∀ j ∈ pyRangeDown (s + cs) i, isTermAt content j = false) →
      computeEnd content cs s = .ok (i + 1)) := by
  constructor
  · intro hall
    unfold computeEnd
    rw [if_pos hlen]
    rw [findTerminal_ok_none fun i hi => ?_]
    have hb := mem_pyRangeDown hi
    have h1 : 0 ≤ i := by omega
    have h2 : i < (content.length : Int) := by omega
    exact ⟨hall i hi, pyGet_isSome h1 h2⟩
  · intro i hi hterm hupper
    have hb := mem_pyRangeDown hi
    unfold computeEnd
    rw [if_pos hlen]
    rw [pyRangeDown_split (s + cs) (max (s + cs - 150) s) i (by omega) (by omega)]
    rw [pyRangeDown_cons i (max (s + cs - 150) s) (by omega)]
    rw [findTerminal_append_found hterm _ fun j hj => ?_]
    have hbj := mem_pyRangeDown hj
    have h1 : 0 ≤ j := by omega
    have h2 : j < (content.length : Int) := by omega
    exact ⟨hupper j hj, pyGet_isSome h1 h2⟩

/-- C6 witness: on a content whose only sentence terminal sits 70
characters before the proposed end, the chunker cuts right after it. -/
theorem claim_C6_scan_window_witness :
    computeEnd (List.replicate 50 'a' ++ ['.'] ++ List.replicate 100 'a') 120 0 =
      .ok (50 + 1) :=
  (claim_C6_scan_window (List.replicate 50 'a' ++ ['.'] ++ List.replicate 100 'a')
      120 0 (by decide) (by decide)).2 50 (by decide) (by decide) (by decide)

/-- C6 counterexample: with `chunkSize = 120` and `overlap = 100`, the
claimed scan depth `chunkSize - overlap = 20` does not reach the period
at offset 50, so under the claim's description the cut would fall at the
raw offset 120; the code scans its hard-coded 150-character window,
finds the period, and cuts at 51 instead. -/
theorem claim_C6_counterexample :
    computeEnd (List.replicate 50 'a' ++ ['.'] ++ List.replicate 100 'a') 120 0 = .ok 51 ∧
    specScanEnd (List.replicate 50 'a' ++ ['.'] ++ List.replicate 100 'a') 120 100 0 = .ok 120 ∧
    computeEnd (List.replicate 50 'a' ++ ['.'] ++ List.replicate 100 'a') 120 0 ≠
      specScanEnd (List.replicate 50 'a' ++ ['.'] ++ List.replicate 100 'a') 120 100 0 :=
  ⟨by decide, by decide, by decide⟩

/-! ## Claim C7 -/

lemma smartAux_nonterm_step (fuel : Nat) (segs : List (Int × Int))
    (chunks : List (List Char)) :
    smartAux (List.replicate 200 'a') 100 100 (fuel + 1) 0 segs chunks =
      smartAux (List.replicate 200 'a') 100 100 fuel 0 (segs ++ [(0, 100)]) chunks :=
  rfl

lemma smartAux_nonterm : ∀ (fuel : Nat) (segs : List (Int × Int))
    (chunks : List (List Char)),
    smartAux (List.replicate 200 'a') 100 100 fuel 0 segs chunks = none := by
  intro fuel
  induction fuel with
  | zero => intro segs chunks; rfl
  | succ n ih =>
    intro segs chunks
    rw [smartAux_nonterm_step]
    exact ih _ _

/-- C7: the code does NOT reject `overlap ≥ chunkSize`; on 200 `'a'`s
with `chunk_size = overlap = 100` the cut falls at offset 100, the
100-character chunk fails the `> 100` guard, and the next start is
`100 - 100 = 0` again: the loop never terminates, whatever fuel it is
given.  (Evidence for the code bug the spec's edge-case sentence warns
about.) -/
theorem claim_C7_no_guard_nontermination (fuel : Nat) :
    smartChunking fuel (List.replicate 200 'a') 100 100 = none := by
  unfold smartChunking
  rw [smartAux_nonterm]
  rfl

/-! ## `clean_and_chunk` (preprocess.py lines 70-101) -/

/-- A raw input entry (a JSON object).  `entry.get(key, default)` is
modelled by `Option.getD`; `section` is a Lean keyword, so that field is
called `sectionLabel` here. -/
structure Record where
  content : Option (List Char)
  url : Option String
  sectionLabel : Option String
deriving DecidableEq

/-- The metadata dict appended for each chunk (preprocess.py
lines 90-96). -/
structure ChunkMeta where
  url : String
  sectionLabel : String
  content_length : Nat
  original_content : List Char
  source_entry : Nat
deriving DecidableEq

/-- The metadata entry built for `chunk` out of entry number `i`. -/
def mkChunkMeta (url sec : String) (content : List Char) (i : Nat)
    (chunk : List Char) : ChunkMeta :=
  { url := url
    sectionLabel := sec
    content_length := chunk.length
    original_content :=
      if 150 < content.length then content.take 150 ++ ['.', '.', '.'] else content
    source_entry := i }

/-- The `for i, entry in enumerate(data)` loop of `clean_and_chunk`.
A `smart_chunking` call that raises is caught by the per-entry
`try/except` and the entry is skipped; fuel exhaustion of the inner loop
(`none`) makes the whole build diverge. -/
def cleanAndChunkAux (fuel : Nat) (cs ov : Int) :
    Nat → List Record → List (List Char) → List ChunkMeta →
    Option (List (List Char) × List ChunkMeta)
  | _, [], cks, mds => some (cks, mds)
  | i, r :: rs, cks, mds =>
    let content := cleanText (r.content.getD [])
    let url := r.url.getD "https://kct.ac.in"
    let sec := r.sectionLabel.getD "General"
    if content.length < 30 then
      cleanAndChunkAux fuel cs ov (i + 1) rs cks mds
    else
      match smartChunking fuel content cs ov with
      | none => none
      | some (.error _) => cleanAndChunkAux fuel cs ov (i + 1) rs cks mds
      | some (.ok cchunks) =>
        cleanAndChunkAux fuel cs ov (i + 1) rs (cks ++ cchunks)
          (mds ++ cchunks.map (mkChunkMeta url sec content i))

/-- `clean_and_chunk(data, chunk_size, overlap)`. -/
def cleanAndChunk (fuel : Nat) (data : List Record) (cs ov : Int) :
    Option (List (List Char) × List ChunkMeta) :=
  cleanAndChunkAux fuel cs ov 0 data [] []

/-- The metadata entry `m` was created for the chunk `c`: its
`content_length` is `c`'s length and its `url`/`section`/`source_entry`
all come from the record that `smart_chunking` produced `c` from. -/
def chunkMetaAligned (fuel : Nat) (data : List Record) (cs ov : Int)
    (c : List Char) (m : ChunkMeta) : Prop :=
  m.content_length = c.length ∧
  ∃ j, ∃ hj : j < data.length,
    m.source_entry = j ∧
    m.url = (data.get ⟨j, hj⟩).url.getD "https://kct.ac.in" ∧
    m.sectionLabel = (data.get ⟨j, hj⟩).sectionLabel.getD "General" ∧
    ∃ cl, smartChunking fuel (cleanText ((data.get ⟨j, hj⟩).content.getD [])) cs ov =
        some (.ok cl) ∧ c ∈ cl

lemma zip_self_map {α β : Type} (f : α → β) :
    ∀ l : List α, l.zip (l.map f) = l.map fun a => (a, f a)
  | [] => rfl
  | a :: t => by
    simp only [List.map_cons, List.zip_cons_cons]
    rw [zip_self_map f t]

lemma get_append_cons (pre rs : List Record) (r : Record)
    (hj : pre.length < (pre ++ r :: rs).length) :
    (pre ++ r :: rs).get ⟨pre.length, hj⟩ = r := by
  rw [List.get_eq_getElem, List.getElem_append_right (Nat.le_refl _)]
  simp

lemma cleanAndChunkAux_invariant (fuel : Nat) (cs ov : Int) (data : List Record) :
    ∀ (rs pre : List Record), data = pre ++ rs →
    ∀ (cks0 : List (List Char)) (mds0 : List ChunkMeta) cks mds,
    cleanAndChunkAux fuel cs ov pre.length rs cks0 mds0 = some (cks, mds) →
    cks0.length = mds0.length →
    (∀ p ∈ cks0.zip mds0, chunkMetaAligned fuel data cs ov p.1 p.2) →
    cks.length = mds.length ∧
      ∀ p ∈ cks.zip mds, chunkMetaAligned fuel data cs ov p.1 p.2 := by
  intro rs
  induction rs with
  | nil =>
    intro pre hdata cks0 mds0 cks mds h hlen hal
    rw [cleanAndChunkAux] at h
    simp only [Option.some.injEq, Prod.mk.injEq] at h
    obtain ⟨h1, h2⟩ := h
    subst h1; subst h2
    exact ⟨hlen, hal⟩
  | cons r rs ih =>
    intro pre hdata cks0 mds0 cks mds h hlen hal
    subst hdata
    rw [cleanAndChunkAux] at h
    have hpre1 : pre.length + 1 = (pre ++ [r]).length := by simp
    have hdata1 : pre ++ r :: rs = (pre ++ [r]) ++ rs := by simp
    split at h
    · rw [hpre1] at h
      exact ih (pre ++ [r]) hdata1 cks0 mds0 cks mds h hlen hal
    · split at h
      next => exact absurd h (by simp)
      next =>
        rw [hpre1] at h
        exact ih (pre ++ [r]) hdata1 cks0 mds0 cks mds h hlen hal
      next cchunks hsc =>
        rw [hpre1] at h
        refine ih (pre ++ [r]) hdata1 _ _ cks mds h (by simp [hlen]) ?_
        intro p hp
        rw [List.zip_append hlen] at hp
        rcases List.mem_append.mp hp with hp' | hp'
        · exact hal p hp'
        · rw [zip_self_map] at hp'
          obtain ⟨c, hcmem, hc⟩ := List.mem_map.mp hp'
          subst hc
          have hjlt : pre.length < (pre ++ r :: rs).length := by simp
          refine ⟨rfl, pre.length, hjlt, rfl, ?_, ?_, cchunks, ?_, hcmem⟩
          · rw [get_append_cons]
            rfl
          · rw [get_append_cons]
            rfl
          · rw [get_append_cons]
            exact hsc

/-- C1: for every input record list (and any configuration and fuel on
which the build completes), `clean_and_chunk` returns chunk and metadata
sequences of equal length, and the metadata entry at each position was
created for the chunk at the same position: its `content_length` is that
chunk's length and its `url`/`section`/`source_entry` come from the
record that chunk was produced from. -/
theorem claim_C1_build_alignment (fuel : Nat) (data : List Record) (cs ov : Int)
    (cks : List (List Char)) (mds : List ChunkMeta)
    (h : cleanAndChunk fuel data cs ov = some (cks, mds)) :
    cks.length = mds.length ∧
      ∀ p ∈ cks.zip mds, chunkMetaAligned fuel data cs ov p.1 p.2 := by
  have := cleanAndChunkAux_invariant fuel cs ov data data [] rfl [] [] cks mds
  exact this h rfl (by simp)

/-- The single concrete record used by the C1 witness. -/
def exRecord : Record := ⟨some (List.replicate 320 'a'), none, none⟩

/-- The metadata entry `clean_and_chunk` builds for `exRecord`. -/
def exMeta : ChunkMeta :=
  ⟨"https://kct.ac.in", "General", 320, List.replicate 150 'a' ++ ['.', '.', '.'], 0⟩

/-- C1 witness: a concrete one-record build, with the alignment property
instantiated at position 0. -/
theorem claim_C1_build_alignment_witness :
    [List.replicate 320 'a'].length = [exMeta].length ∧
      chunkMetaAligned 10 [exRecord] 600 150 (List.replicate 320 'a') exMeta := by
  have h := claim_C1_build_alignment 10 [exRecord] 600 150
    [List.replicate 320 'a'] [exMeta] (by decide)
  exact ⟨h.1, h.2 (List.replicate 320 'a', exMeta) (by simp [List.zip])⟩

/-! ## `query_bot.py`: state, initialization and search -/

/-- An embedding vector (float components modelled as rationals). -/
def Embedding : Type := List ℚ

/-- The embedding model: `model.encode([query])` applied to one query;
an external call that may fail. -/
def Encoder : Type := List Char → Except Unit Embedding

/-- The FAISS index handle: `index.search(embedding, k)` yields the
row-0 arrays `D[0]` (distances) and `I[0]` (ordinals; int64, possibly
negative); an external call that may fail. -/
def IndexHandle : Type := Embedding → Nat → Except Unit (List ℚ × List Int)

/-- The module-level globals of query_bot.py: `model`, `index`,
`metadata`, `chunks` (lines 17-21). -/
structure SysState where
  model : Option Encoder
  index : Option IndexHandle
  metadata : List ChunkMeta
  chunks : List (List Char)

/-- The persisted artifacts as `initialize_system` sees them: `none`
means the file is absent (`os.path.exists` false).  Reading a present,
well-formed file is modelled as yielding its decoded value; `encoder`
stands for the `SentenceTransformer` constructor. -/
structure ArtifactStore where
  encoder : Option Encoder
  indexFile : Option IndexHandle
  metadataFile : Option (List ChunkMeta)
  chunksFile : Option (List (List Char))

/-- `initialize_system()` (query_bot.py lines 23-56): load the model,
fail if the index file is absent, then load metadata and chunks only if
their files exist (globals keep their previous values otherwise), and
report success.  The successive global assignments are collapsed into
the returned state. -/
def initializeSystem (fs : ArtifactStore) (st : SysState) : Bool × SysState :=
  match fs.encoder with
  | none => (false, st)
  | some enc =>
    match fs.indexFile with
    | none => (false, { st with model := some enc })
    | some ix =>
      (true,
        { model := some enc
          index := some ix
          metadata := fs.metadataFile.getD st.metadata
          chunks := fs.chunksFile.getD st.chunks })

/-- `kct_keywords` (query_bot.py line 72). -/
def kctKeywords : List (List Char) :=
  ["KCT".toList, "Kumaraguru".toList, "College".toList, "Technology".toList]

/-- Python `str.lower()` (ASCII fragment; the keywords are ASCII). -/
def pyLower (l : List Char) : List Char := l.map Char.toLower

/-- `re.sub(r'\s+', ' ', query.strip())` (line 70). -/
def normalizeQuery (q : List Char) : List Char := collapseWs (pyStrip q)

/-- `"Kumaraguru College of Technology "` — the f-string on line 76
prepends the anchor and a separating space. -/
def anchorText : List Char := "Kumaraguru College of Technology ".toList

/-- Lines 69-76: normalize whitespace, then prepend the anchor iff no
keyword occurs case-insensitively (Python's substring `in`) in the
query. -/
def processedQuery (q : List Char) : List Char :=
  if kctKeywords.any fun kw => decide (pyLower kw <:+: pyLower (normalizeQuery q)) then
    normalizeQuery q
  else anchorText ++ normalizeQuery q

/-- Rational addition, spelled through `Rat.divInt` so that the model
evaluates inside the proof checker; it is the ordinary `+`
(`ratAdd_eq`). -/
def ratAdd (a b : ℚ) : ℚ :=
  Rat.divInt (a.num * b.den + b.num * a.den) (a.den * b.den)

/-- Rational division, spelled through `Rat.divInt`; it is the ordinary
`/` (`ratDiv_eq`). -/
def ratDiv (a b : ℚ) : ℚ := Rat.divInt (a.num * b.den) (a.den * b.num)

lemma ratAdd_eq (a b : ℚ) : ratAdd a b = a + b := by
  unfold ratAdd
  rw [Rat.divInt_eq_div]
  have ha : (a.den : ℚ) ≠ 0 := Nat.cast_ne_zero.mpr a.den_nz
  have hb : (b.den : ℚ) ≠ 0 := Nat.cast_ne_zero.mpr b.den_nz
  push_cast
  conv_rhs => rw [← Rat.num_div_den a, ← Rat.num_div_den b]
  field_simp

lemma ratDiv_eq (a b : ℚ) : ratDiv a b = a / b := by
  unfold ratDiv
  by_cases h : b = 0
  · subst h
    simp
  · rw [Rat.divInt_eq_div]
    have ha : (a.den : ℚ) ≠ 0 := Nat.cast_ne_zero.mpr a.den_nz
    have hbd : (b.den : ℚ) ≠ 0 := Nat.cast_ne_zero.mpr b.den_nz
    have hbn : (b.num : ℚ) ≠ 0 := by simpa [Rat.num_ne_zero] using h
    push_cast
    conv_rhs => rw [← Rat.num_div_den a, ← Rat.num_div_den b]
    field_simp

/-- A SearchResult dict (text, relevance, distance and the merged-in
metadata fields). -/
structure SResult where
  text : List Char
  relevance_score : ℚ
  distance : ℚ
  meta : ChunkMeta
deriving DecidableEq

/-- Python list subscript for arbitrary elements: negative indices wrap,
out-of-range raises `IndexError`. -/
def pyGetL {α : Type} (l : List α) (i : Int) : Except Unit α :=
  if 0 ≤ i then
    match l[i.toNat]? with
    | some x => .ok x
    | none => .error ()
  else if 0 ≤ i + l.length then
    match l[(i + l.length).toNat]? with
    | some x => .ok x
    | none => .error ()
  else .error ()

/-- `1 / (1 + distance)` with Python's `ZeroDivisionError`. -/
def pyDiv (a b : ℚ) : Except Unit ℚ :=
  if b = 0 then .error () else .ok (ratDiv a b)

/-- Lines 83-96: assemble a SearchResult per `(distance, ordinal)` pair
of `zip(D[0], I[0])`, skipping pairs whose ordinal fails the high-side
bound check (`idx < len(chunks) and idx < len(metadata)`; the check does
not stop negative int64 ordinals, which Python then wraps).  The
redundant `metadata[idx] if idx < len(metadata) else {}` is modelled by
`pyGetL metadata idx`, whose guard has already been established. -/
def assembleResults (chunks : List (List Char)) (metadata : List ChunkMeta) :
    List (ℚ × Int) → Except Unit (List SResult)
  | [] => .ok []
  | (d, idx) :: rest =>
    if idx < (chunks.length : Int) ∧ idx < (metadata.length : Int) then
      match pyGetL chunks idx with
      | .error e => .error e
      | .ok text =>
        match pyGetL metadata idx with
        | .error e => .error e
        | .ok m =>
          match pyDiv 1 (ratAdd 1 d) with
          | .error e => .error e
          | .ok rel =>
            match assembleResults chunks metadata rest with
            | .error e => .error e
            | .ok tail =>
              .ok ({ text := text, relevance_score := rel, distance := d, meta := m } :: tail)
    else assembleResults chunks metadata rest

/-- The descending-by-relevance comparison of line 98. -/
def relGE (a b : SResult) : Prop := b.relevance_score ≤ a.relevance_score

instance : DecidableRel relGE := fun a b =>
  inferInstanceAs (Decidable (b.relevance_score ≤ a.relevance_score))

instance : IsTotal SResult relGE := ⟨fun a b => le_total b.relevance_score a.relevance_score⟩

instance : IsTrans SResult relGE := ⟨fun _ _ _ hab hbc => le_trans hbc hab⟩

/-- `results.sort(key=lambda x: x["relevance_score"], reverse=True)`
(line 98): a stable descending sort by relevance.  Python's sort is
stable, and every stable sort computes the same list, so the model uses
the structurally recursive `insertionSort` (whose stability Mathlib
proves) as its counterpart. -/
def pySortDesc (l : List SResult) : List SResult :=
  l.insertionSort relGE

/-- The body of the `try:` block of `enhanced_semantic_search`
(lines 68-99).  Any failing step short-circuits to `.error` (the
exception the `except` clause catches); using a `None` model or index
raises an `AttributeError`, hence the `.error` on `none`. -/
def searchBody (st : SysState) (query : List Char) (k : Nat) :
    Except Unit (List SResult) :=
  match st.model with
  | none => .error ()
  | some enc =>
    match enc (processedQuery query) with
    | .error e => .error e
    | .ok emb =>
      match st.index with
      | none => .error ()
      | some ix =>
        match ix emb (min (k * 2) st.chunks.length) with
        | .error e => .error e
        | .ok (dists, ids) =>
          match assembleResults st.chunks st.metadata (dists.zip ids) with
          | .error e => .error e
          | .ok assembled => .ok ((pySortDesc assembled).take k)

/-- Lines 62-63: `if model is None or index is None: initialize_system()`
— the state the rest of the function runs in. -/
def postInitState (fs : ArtifactStore) (st : SysState) : SysState :=
  if st.model.isNone || st.index.isNone then (initializeSystem fs st).2 else st

/-- `enhanced_semantic_search(query, k)` (lines 58-103): empty chunk or
metadata store short-circuits to `[]`; any exception in the body is
converted to `[]` by the `except` clause. -/
def enhancedSemanticSearch (fs : ArtifactStore) (st : SysState)
    (query : List Char) (k : Nat) : SysState × List SResult :=
  if (postInitState fs st).chunks.isEmpty || (postInitState fs st).metadata.isEmpty then
    (postInitState fs st, [])
  else
    match searchBody (postInitState fs st) query k with
    | .ok res => (postInitState fs st, res)
    | .error _ => (postInitState fs st, [])

/-! ## `create_conversational_prompt` (query_bot.py lines 105-140) -/

/-- `c.get("relevance_score", 0) > 0.3`. -/
def qualifies (r : SResult) : Bool := decide (mkRat 3 10 < r.relevance_score)

/-- Lines 108-111: keep the results above the relevance threshold; if
none qualifies, fall back to the first 3 raw results. -/
def relevantChunksOf (context_chunks : List SResult) : List SResult :=
  if (context_chunks.filter qualifies).isEmpty then
    if context_chunks.isEmpty then [] else context_chunks.take 3
  else context_chunks.filter qualifies

/-- The results whose text is placed into the prompt:
`relevant_chunks[:3]` (line 115). -/
def selectContextChunks (context_chunks : List SResult) : List SResult :=
  (relevantChunksOf context_chunks).take 3

/-- `"Information {i+1}: {chunk['text']}"` for each selected chunk. -/
def contextParts : Nat → List SResult → List String
  | _, [] => []
  | i, r :: rest =>
    ("Information " ++ toString (i + 1) ++ ": " ++ String.mk r.text) ::
      contextParts (i + 1) rest

/-- `create_conversational_prompt(query, context_chunks)` (the source's
contractions are spelled out: "don't" → "do not"). -/
def createConversationalPrompt (query : List Char)
    (context_chunks : List SResult) : String :=
  let context :=
    if (relevantChunksOf context_chunks).isEmpty then
      "General information about Kumaraguru College of Technology (KCT), a premier engineering institution in Coimbatore, Tamil Nadu."
    else
      String.intercalate "\n\n" (contextParts 0 (selectContextChunks context_chunks))
  "You are a helpful assistant for Kumaraguru College of Technology (KCT).\n\nQUESTION: "
    ++ String.mk query
    ++ "\n\nAVAILABLE INFORMATION:\n" ++ context
    ++ "\n\nINSTRUCTIONS:\n1. Provide a clear, concise answer using the information available\n2. Be conversational and friendly\n3. Use appropriate emojis to make the response engaging\n4. Break down information into clear sections\n5. Highlight important points\n6. Do NOT include any source citations, references, or links in your response\n7. If you do not have specific information, provide general helpful guidance\n\nFORMAT YOUR RESPONSE:\n[Your natural response here without any sources or citations]"

/-! ## Claim C5 -/

lemma processedQuery_eq (q : List Char) :
    processedQuery q =
      if ∃ kw ∈ kctKeywords, pyLower kw <:+: pyLower (normalizeQuery q) then
        normalizeQuery q
      else anchorText ++ normalizeQuery q := by
  simp only [processedQuery, List.any_eq_true, decide_eq_true_eq]

/-- C5: the retriever encodes the anchored query exactly when the
whitespace-normalized query contains none of the fixed keywords
case-insensitively; a query containing at least one keyword is encoded
unmodified (after whitespace normalization). -/
theorem claim_C5_domain_anchoring (q : List Char) :
    (processedQuery q = anchorText ++ normalizeQuery q ↔
      ¬ ∃ kw ∈ kctKeywords, pyLower kw <:+: pyLower (normalizeQuery q)) ∧
    (processedQuery q = normalizeQuery q ↔
      ∃ kw ∈ kctKeywords, pyLower kw <:+: pyLower (normalizeQuery q)) := by
  have hne : anchorText ++ normalizeQuery q ≠ normalizeQuery q := by
    intro h
    have hlen := congrArg List.length h
    rw [List.length_append] at hlen
    have h33 : anchorText.length = 33 := by decide
    omega
  rw [processedQuery_eq]
  by_cases hmem : ∃ kw ∈ kctKeywords, pyLower kw <:+: pyLower (normalizeQuery q)
  · rw [if_pos hmem]
    exact ⟨⟨fun h => (hne h.symm).elim, fun hn => (hn hmem).elim⟩,
      ⟨fun _ => hmem, fun _ => rfl⟩⟩
  · rw [if_neg hmem]
    exact ⟨⟨fun _ => hmem, fun _ => rfl⟩,
      ⟨fun h => (hne h).elim, fun hm => (hmem hm).elim⟩⟩

/-- C5 witness: the two scenarios of §8 of the spec. -/
theorem claim_C5_domain_anchoring_witness :
    processedQuery "hostel facilities".toList =
      anchorText ++ normalizeQuery "hostel facilities".toList ∧
    processedQuery "KCT hostel facilities".toList =
      normalizeQuery "KCT hostel facilities".toList :=
  ⟨(claim_C5_domain_anchoring _).1.mpr (by decide),
   (claim_C5_domain_anchoring _).2.mpr (by decide)⟩

/-! ## Claim C9 -/

/-- C9 (amended): at load time only the absence of the vector index file
is surfaced as an initialization failure; an absent chunk store (or
metadata) file is silently ignored — `initialize_system` still reports
success and the chunk global keeps its previous value. -/
theorem claim_C9_init_missing_artifacts (fs : ArtifactStore) (st : SysState)
    (e : Encoder) (henc : fs.encoder = some e) :
    ((initializeSystem fs st).1 = false ↔ fs.indexFile = none) ∧
    (fs.chunksFile = none → (initializeSystem fs st).2.chunks = st.chunks) := by
  constructor
  · cases hix : fs.indexFile with
    | none => simp [initializeSystem, henc, hix]
    | some ix => simp [initializeSystem, henc, hix]
  · intro hch
    cases hix : fs.indexFile with
    | none => simp [initializeSystem, henc, hix]
    | some ix => simp [initializeSystem, henc, hix, hch]

/-- A trivial embedding model (loads fine, encodes everything to the
empty vector). -/
def exEncoder : Encoder := fun _ => .ok ([] : List ℚ)

/-- An index handle returning no neighbours. -/
def exIndexHandle : IndexHandle := fun _ _ => .ok (([] : List ℚ), ([] : List Int))

/-- The module state right after import (lines 17-21). -/
def emptyState : SysState := ⟨none, none, [], []⟩

/-- Artifacts: model loads, index file present, chunk store and
metadata files absent. -/
def fsMissingChunks : ArtifactStore := ⟨some exEncoder, some exIndexHandle, none, none⟩

/-- Artifacts: model loads, every persisted file absent. -/
def fsMissingIndexFile : ArtifactStore := ⟨some exEncoder, none, none, none⟩

/-- C9 counterexample: with the chunk store file absent (and the index
file present), `initialize_system` reports success — the absence of the
chunk store is silently ignored, contradicting the claim. -/
theorem claim_C9_counterexample :
    fsMissingChunks.chunksFile = none ∧
      (initializeSystem fsMissingChunks emptyState).1 = true :=
  ⟨rfl, rfl⟩

/-- C9 witness: a missing index file does fail initialization, and the
missing chunk store leaves the chunk global untouched. -/
theorem claim_C9_init_missing_artifacts_witness :
    (initializeSystem fsMissingIndexFile emptyState).1 = false ∧
      (initializeSystem fsMissingIndexFile emptyState).2.chunks = emptyState.chunks :=
  ⟨(claim_C9_init_missing_artifacts fsMissingIndexFile emptyState exEncoder rfl).1.mpr rfl,
   (claim_C9_init_missing_artifacts fsMissingIndexFile emptyState exEncoder rfl).2 rfl⟩

/-! ## Claim C3 -/

lemma searchBody_error_of_index_none (st : SysState) (q : List Char) (k : Nat)
    (h : st.index = none) : searchBody st q k = .error () := by
  unfold searchBody
  cases hm : st.model with
  | none => rfl
  | some enc =>
    dsimp only
    cases he : enc (processedQuery q) with
    | error e => cases e; rfl
    | ok emb => dsimp only; rw [h]

/-- C3: `enhanced_semantic_search` never raises: with an empty chunk or
metadata store it returns the empty result sequence; with an unloaded
index it returns the empty result sequence; and every exception raised
inside the retrieval body is caught at this boundary and converted to
the empty result sequence.  (In the embedding, raising is the `.error`
value of the body, and the returned result list is total.) -/
theorem claim_C3_error_boundary (fs : ArtifactStore) (st : SysState)
    (q : List Char) (k : Nat) :
    ((postInitState fs st).chunks.isEmpty = true ∨
        (postInitState fs st).metadata.isEmpty = true →
      (enhancedSemanticSearch fs st q k).2 = []) ∧
    ((postInitState fs st).index = none →
      (enhancedSemanticSearch fs st q k).2 = []) ∧
    (∀ e, searchBody (postInitState fs st) q k = .error e →
      (enhancedSemanticSearch fs st q k).2 = []) := by
  have h3 : ∀ e, searchBody (postInitState fs st) q k = .error e →
      (enhancedSemanticSearch fs st q k).2 = [] := by
    intro e hb
    unfold enhancedSemanticSearch
    by_cases hcond : ((postInitState fs st).chunks.isEmpty ||
        (postInitState fs st).metadata.isEmpty) = true
    · rw [if_pos hcond]
    · rw [if_neg hcond, hb]
  refine ⟨?_, fun h => h3 () (searchBody_error_of_index_none _ q k h), h3⟩
  · intro h
    have hcond : ((postInitState fs st).chunks.isEmpty ||
        (postInitState fs st).metadata.isEmpty) = true := by
      rcases h with h | h <;> simp [h]
    unfold enhancedSemanticSearch
    rw [if_pos hcond]

/-- Artifacts: nothing can be loaded at all. -/
def fsEmptyStore : ArtifactStore := ⟨none, none, none, none⟩

/-- C3 witness: searching the freshly imported module with no artifacts
on disk returns the empty result sequence. -/
theorem claim_C3_error_boundary_witness :
    (postInitState fsEmptyStore emptyState).chunks.isEmpty = true ∧
    (postInitState fsEmptyStore emptyState).index = none ∧
    searchBody (postInitState fsEmptyStore emptyState) "hello".toList 5 = .error () ∧
    (enhancedSemanticSearch fsEmptyStore emptyState "hello".toList 5).2 = [] :=
  ⟨rfl, rfl, rfl,
    (claim_C3_error_boundary fsEmptyStore emptyState "hello".toList 5).1 (Or.inl rfl)⟩

/-! ## Claims C8 and C10 -/

lemma selectContextChunks_eq (l : List SResult) :
    selectContextChunks l =
      if (l.filter qualifies).isEmpty then l.take 3
      else (l.filter qualifies).take 3 := by
  unfold selectContextChunks relevantChunksOf
  by_cases h : (l.filter qualifies).isEmpty = true
  · rw [if_pos h, if_pos h]
    cases l with
    | nil => rfl
    | cons a t => simp [List.take_take]
  · rw [if_neg h, if_neg h]

/-- C8 (amended): the context supplied to the answer generator consists
of the first 3 (at most 3) search results whose relevance is strictly
greater than 0.3; if no result qualifies, it falls back to the first 3
raw (unfiltered) results in their original order. -/
theorem claim_C8_context_threshold (l : List SResult) :
    ((l.filter qualifies).isEmpty = false →
      selectContextChunks l = (l.filter qualifies).take 3) ∧
    ((l.filter qualifies).isEmpty = true →
      selectContextChunks l = l.take 3) := by
  rw [selectContextChunks_eq]
  constructor
  · intro h
    rw [if_neg (by simp [h])]
  · intro h
    rw [if_pos h]

/-- A result with relevance 1/2 (> 0.3) whose text is the one
character `c`. -/
def exResultOf (c : Char) : SResult := ⟨[c], mkRat 1 2, 1, exMeta⟩

/-- Four qualifying results. -/
def exContextFour : List SResult :=
  [exResultOf 'a', exResultOf 'b', exResultOf 'c', exResultOf 'd']

/-- C8 counterexample: all four results pass the 0.3 threshold, yet the
fourth never reaches the prompt — the generator context is not the set
of qualifying results but only its first 3 elements. -/
theorem claim_C8_counterexample :
    qualifies (exResultOf 'd') = true ∧
    exResultOf 'd' ∈ exContextFour.filter qualifies ∧
    exResultOf 'd' ∉ selectContextChunks exContextFour ∧
    selectContextChunks exContextFour ≠ exContextFour.filter qualifies :=
  ⟨by decide, by decide, by decide, by decide⟩

/-- C8 witness: with qualifying results present, the context is the
first 3 of them. -/
theorem claim_C8_context_threshold_witness :
    (exContextFour.filter qualifies).isEmpty = false ∧
      selectContextChunks exContextFour = (exContextFour.filter qualifies).take 3 :=
  ⟨by decide, (claim_C8_context_threshold exContextFour).1 (by decide)⟩

/-- C10: the prompt never includes more than 3 context chunks — even
when more than 3 results exceed the threshold, only the first 3
qualifying results appear. -/
theorem claim_C10_context_cap (l : List SResult) :
    (selectContextChunks l).length ≤ 3 ∧
    (3 < (l.filter qualifies).length →
      selectContextChunks l = (l.filter qualifies).take 3) := by
  rw [selectContextChunks_eq]
  constructor
  · split <;> (rw [List.length_take]; omega)
  · intro h
    have hne : (l.filter qualifies).isEmpty = false := by
      cases hfe : l.filter qualifies with
      | nil => rw [hfe] at h; simp at h
      | cons a t => rfl
    rw [if_neg (by simp [hne])]

/-- C10 witness: four qualifying results, three context chunks. -/
theorem claim_C10_context_cap_witness :
    (selectContextChunks exContextFour).length ≤ 3 ∧
      3 < (exContextFour.filter qualifies).length ∧
      selectContextChunks exContextFour = (exContextFour.filter qualifies).take 3 :=
  ⟨(claim_C10_context_cap exContextFour).1, by decide,
    (claim_C10_context_cap exContextFour).2 (by decide)⟩

/-! ## Claim C4 -/

lemma assembleResults_relevance (chunks : List (List Char))
    (metadata : List ChunkMeta) :
    ∀ (pairs : List (ℚ × Int)) (res : List SResult),
    assembleResults chunks metadata pairs = .ok res →
    ∀ r ∈ res, r.relevance_score = 1 / (1 + r.distance) := by
  intro pairs
  induction pairs with
  | nil =>
    intro res h r hr
    rw [assembleResults] at h
    simp only [Except.ok.injEq] at h
    subst h
    simp at hr
  | cons p rest ih =>
    intro res h r hr
    obtain ⟨d, idx⟩ := p
    rw [assembleResults] at h
    split at h
    · split at h
      next => simp at h
      next text htext =>
        split at h
        next => simp at h
        next m hm =>
          split at h
          next => simp at h
          next rel hrel =>
            split at h
            next => simp at h
            next tail htail =>
              simp only [Except.ok.injEq] at h
              subst h
              rcases List.mem_cons.mp hr with hr' | hr'
              · subst hr'
                unfold pyDiv at hrel
                split at hrel
                next => simp at hrel
                next =>
                  simp only [Except.ok.injEq] at hrel
                  subst hrel
                  show ratDiv 1 (ratAdd 1 d) = 1 / (1 + d)
                  rw [ratDiv_eq, ratAdd_eq]
              · exact ih tail htail r hr'
    · exact ih res h r hr

lemma searchBody_ok_shape (st : SysState) (q : List Char) (k : Nat)
    (res : List SResult) (h : searchBody st q k = .ok res) :
    ∃ pairs assembled,
      assembleResults st.chunks st.metadata pairs = .ok assembled ∧
      res = (pySortDesc assembled).take k := by
  unfold searchBody at h
  split at h
  next => simp at h
  next enc henc =>
    split at h
    next => simp at h
    next emb hemb =>
      split at h
      next => simp at h
      next ix hix =>
        split at h
        next => simp at h
        next dists ids hsearch =>
          split at h
          next => simp at h
          next assembled hass =>
            simp only [Except.ok.injEq] at h
            exact ⟨dists.zip ids, assembled, hass, h.symm⟩

lemma pySortDesc_pairwise (l : List SResult) :
    (pySortDesc l).Pairwise relGE :=
  List.sorted_insertionSort relGE l

lemma pySortDesc_perm (l : List SResult) : pySortDesc l ~ l :=
  List.perm_insertionSort relGE l

lemma pySortDesc_filter_eq (l : List SResult) (v : ℚ) :
    (pySortDesc l).filter (fun r => decide (r.relevance_score = v)) =
      l.filter (fun r => decide (r.relevance_score = v)) := by
  have hsub : (l.filter fun r => decide (r.relevance_score = v)) <+ pySortDesc l := by
    unfold pySortDesc
    have hpair : (l.filter fun r => decide (r.relevance_score = v)).Pairwise relGE := by
      refine List.pairwise_of_forall_mem_list ?_
      intro a ha b hb
      have hav : a.relevance_score = v := by
        have h' := List.of_mem_filter ha
        simp only [decide_eq_true_eq] at h'
        exact h'
      have hbv : b.relevance_score = v := by
        have h' := List.of_mem_filter hb
        simp only [decide_eq_true_eq] at h'
        exact h'
      unfold relGE
      rw [hav, hbv]
    exact List.sublist_insertionSort hpair (List.filter_sublist l)
  have hsub2 : (l.filter fun r => decide (r.relevance_score = v)) <+
      (pySortDesc l).filter (fun r => decide (r.relevance_score = v)) := by
    have hpp : (fun a : SResult =>
        decide (a.relevance_score = v) && decide (a.relevance_score = v)) =
        fun a : SResult => decide (a.relevance_score = v) := by
      funext a
      rw [Bool.and_self]
    have h2 := hsub.filter fun r => decide (r.relevance_score = v)
    rw [List.filter_filter] at h2
    rwa [hpp] at h2
  have hlen : ((pySortDesc l).filter (fun r => decide (r.relevance_score = v))).length =
      (l.filter fun r => decide (r.relevance_score = v)).length :=
    ((pySortDesc_perm l).filter _).length_eq
  exact (hsub2.eq_of_length hlen.symm).symm

/-- C4: `enhanced_semantic_search(query, k)` returns at most `k`
results, ordered by non-increasing relevance, each carrying
`relevance = 1/(1 + distance)` for its raw distance; the sort of
line 98 is stable, so results with equal relevance keep their prior
(index-returned) order — restricting the sorted list to any one
relevance value reproduces the assembled order exactly. -/
theorem claim_C4_ranked_results (fs : ArtifactStore) (st : SysState)
    (q : List Char) (k : Nat) :
    ((enhancedSemanticSearch fs st q k).2.length ≤ k) ∧
    ((enhancedSemanticSearch fs st q k).2.Pairwise fun a b =>
      b.relevance_score ≤ a.relevance_score) ∧
    (∀ r ∈ (enhancedSemanticSearch fs st q k).2,
      r.relevance_score = 1 / (1 + r.distance)) ∧
    (∀ (l : List SResult) (v : ℚ),
      (pySortDesc l).filter (fun r => decide (r.relevance_score = v)) =
        l.filter (fun r => decide (r.relevance_score = v))) := by
  have hres : (enhancedSemanticSearch fs st q k).2 = [] ∨
      ∃ pairs assembled,
        assembleResults (postInitState fs st).chunks (postInitState fs st).metadata
            pairs = .ok assembled ∧
        (enhancedSemanticSearch fs st q k).2 = (pySortDesc assembled).take k := by
    unfold enhancedSemanticSearch
    split
    · exact Or.inl rfl
    · cases hb : searchBody (postInitState fs st) q k with
      | error e => exact Or.inl rfl
      | ok res =>
        obtain ⟨pairs, assembled, hass, hshape⟩ := searchBody_ok_shape _ _ _ _ hb
        exact Or.inr ⟨pairs, assembled, hass, hshape⟩
  refine ⟨?_, ?_, ?_, fun l v => pySortDesc_filter_eq l v⟩
  · rcases hres with h | ⟨pairs, assembled, hass, h⟩
    · rw [h]; exact Nat.zero_le _
    · rw [h, List.length_take]
      exact Nat.min_le_left _ _
  · rcases hres with h | ⟨pairs, assembled, hass, h⟩
    · rw [h]; exact List.Pairwise.nil
    · rw [h]
      exact ((pySortDesc_pairwise assembled).sublist (List.take_sublist _ _)).imp
        fun hab => hab
  · intro r hr
    rcases hres with h | ⟨pairs, assembled, hass, h⟩
    · rw [h] at hr; simp at hr
    · rw [h] at hr
      have hmem : r ∈ pySortDesc assembled := List.mem_of_mem_take hr
      have hmem2 : r ∈ assembled := (pySortDesc_perm assembled).subset hmem
      exact assembleResults_relevance _ _ pairs assembled hass r hmem2

/-- An index handle returning two neighbours at distances 0 and 1. -/
def exIndexTwo : IndexHandle := fun _ _ => .ok (([0, 1] : List ℚ), ([0, 1] : List Int))

/-- A fully loaded state with two chunks and their metadata. -/
def stLoaded : SysState :=
  ⟨some exEncoder, some exIndexTwo, [exMeta, exMeta], [['a'], ['b']]⟩

/-- The nearest result of the witness run: distance 0, relevance 1. -/
def exTopResult : SResult := ⟨['a'], 1, 0, exMeta⟩

/-- C4 witness: a concrete two-chunk search returning two ranked
results, instantiating the relevance formula at the top result. -/
theorem claim_C4_ranked_results_witness :
    (enhancedSemanticSearch fsEmptyStore stLoaded ['x'] 5).2.length ≤ 5 ∧
      exTopResult ∈ (enhancedSemanticSearch fsEmptyStore stLoaded ['x'] 5).2 ∧
      exTopResult.relevance_score = 1 / (1 + exTopResult.distance) :=
  ⟨(claim_C4_ranked_results fsEmptyStore stLoaded ['x'] 5).1, by decide,
    (claim_C4_ranked_results fsEmptyStore stLoaded ['x'] 5).2.2.1 exTopResult (by decide)⟩

end KctBot
